import Mathlib

/-!
Verification development for the simulated address-space manager
(`src/alloc_addresses/mod.rs`).

The Rust source is shallowly embedded: `u64` addresses and `AllocId`s become
`Nat`, `FxHashMap`/`FxHashSet` become association lists / lists with
membership semantics, and the sorted `Vec<(u64, AllocId)>` reverse map
becomes a list of pairs kept sorted by its key, searched by the executable
`searchKey` function (which, on a strictly sorted list, computes exactly
what `slice::binary_search_by_key` returns: `hit i` for an exact match,
`miss i` with the insertion index otherwise).

Rust panics (`unwrap`, `unwrap_err`, `assert!`, `panic!`) are modelled as
explicit outcomes (`Option` results, or a dedicated `panicked` constructor),
never silently dropped.

Collaborator modules that are not part of the analyzed source
(`page_table.rs`, `reuse_pool.rs`, `physical_mem`, the thread manager and
the `get_alloc_info` oracle of the interpreter) are modelled from the spec
as oracle fields of an `Env` record; each such field is documented at its
declaration.
-/

/-- ProvenanceMode from the source: governs int2ptr casts. -/
inductive ProvenanceMode where
  | Default
  | Permissive
  | Strict
deriving DecidableEq

/-- PageState: classification of a physical page. Modelled from the spec:
the `physical_mem::PageState` type is not in the analyzed source; the spec
says pages are either Untyped or Typed with a fixed element size
(`type_size` in the source's pattern `PageState::Typed { page_type, type_size }`). -/
inductive PageState where
  | Untyped
  | Typed (type_size : Nat)
deriving DecidableEq

/-- PageTable. Modelled from the spec: `page_table.rs` is not in the analyzed
source; the spec says it maps virtual addresses to physical addresses via
`page_walk(virtual) -> physical`, failing (None) when there is no mapping. -/
structure PageTable where
  walk : Nat → Option Nat

/-- MemoryKind: only the `Stack` distinction matters to this module
(`memory_kind == MemoryKind::Stack` in `addr_from_alloc_id_uncached`). -/
inductive MemoryKind where
  | Stack
  | Heap
  | Global
  | Kernel
deriving DecidableEq

/-- GlobalStateInner from the source. `int_to_ptr_map` is the reverse map
(sorted by address), `base_addr` the forward map, `exposed` the exposed set.
`prepared_alloc_bytes`, `reuse` and the `stack` vector are omitted: they are
never read by the operations the claims are about (the reuse pool lives in
the missing `reuse_pool.rs` and its `take_addr` result is passed in as an
oracle argument below). -/
structure GlobalStateInner where
  int_to_ptr_map : List (Nat × Nat)
  base_addr : List (Nat × Nat)
  exposed : List Nat
  next_base_addr : Nat
  next_cpu_local_addr : Nat
  provenance_mode : ProvenanceMode
  page_table : Option PageTable

/-- Environment of oracles for collaborator modules that are outside the
analyzed source. All fields are modelled from the spec:
* `kcbv` — the `KERNEL_CODE_BASE_VADDR` constant of `page_table.rs`;
* `page_size` — `physical_mem::PAGE_SIZE` (the commented-out code in the
  source uses 4096);
* `page_states` — the `PAGE_STATES` static, indexed by page number;
* `cpu_local_size`, `current_cpu_local_base`, `cpu_local_base0` — the
  CPU-local window constants and the thread manager's
  `current_cpu_local_base()` / `cpu_local_base[0]`;
* `alloc_size`, `alloc_align`, `alloc_dead` — the interpreter's
  `get_alloc_info` oracle (size and alignment in bytes, and whether the
  allocation kind is `AllocKind::Dead`);
* `cpu_alloc` — membership in the machine's `cpu_alloc_set`;
* `native`, `native_addr` — native-lib mode and the host address the
  backing store reports in that mode;
* `stack_begin`, `cpu_local_end` — the `STACK_BEGIN` / `CPU_LOCAL_END`
  region bounds of `physical_mem`;
* `target_usize_max` — `ecx.target_usize_max()`. -/
structure Env where
  kcbv : Nat
  page_size : Nat
  page_states : Nat → PageState
  cpu_local_size : Nat
  current_cpu_local_base : Nat
  cpu_local_base0 : Nat
  alloc_size : Nat → Nat
  alloc_align : Nat → Nat
  alloc_dead : Nat → Bool
  cpu_alloc : Nat → Bool
  native : Bool
  native_addr : Nat → Nat
  stack_begin : Nat
  cpu_local_end : Nat
  target_usize_max : Nat

/-- Result of `slice::binary_search_by_key`: `hit i` is Rust's `Ok(i)`
(the key is at index `i`), `miss i` is `Err(i)` (the key is absent and `i`
is the insertion point). -/
inductive BinSearch where
  | hit (i : Nat)
  | miss (i : Nat)
deriving DecidableEq

/-- Search for `key` among the first components of `l`. On a list that is
strictly sorted by key — the standing invariant of `int_to_ptr_map` — this
computes exactly what `binary_search_by_key` returns. -/
def searchKey : List (Nat × Nat) → Nat → BinSearch
  | [], _ => .miss 0
  | (a, _) :: rest, key =>
    if key < a then .miss 0
    else if key = a then .hit 0
    else
      match searchKey rest key with
      | .hit i => .hit (i + 1)
      | .miss i => .miss (i + 1)

/-- Association-list lookup, modelling `FxHashMap::get` on `base_addr`. -/
def lookupA : List (Nat × Nat) → Nat → Option Nat
  | [], _ => none
  | (k, v) :: rest, key => if key = k then some v else lookupA rest key

/-- Insert an element at a given index, modelling `Vec::insert`. -/
def insertAt : List (Nat × Nat) → Nat → (Nat × Nat) → List (Nat × Nat)
  | l, 0, x => x :: l
  | [], _ + 1, x => [x]
  | y :: l, n + 1, x => y :: insertAt l n x

/-- The shared reverse-map insertion logic of `set_address` and
`addr_from_alloc_id` (the source spells it out twice): fast-path append when
the new address is bigger than the current maximum, otherwise insert at the
`binary_search` insertion point. `none` models the `unwrap_err()` panic that
fires when the address is already present. -/
def insertIP (l : List (Nat × Nat)) (paddr id : Nat) : Option (List (Nat × Nat)) :=
  if (l.getLast?).elim false (fun last => decide (last.1 < paddr)) then
    some (l ++ [(paddr, id)])
  else
    match searchKey l paddr with
    | .hit _ => none
    | .miss p => some (insertAt l p (paddr, id))

/-- GlobalStateInner::set_address from the source: register `alloc_id` at
physical address `paddr` — unconditionally insert into `exposed`, insert
into the reverse map (sorted position), and into the forward map. `none`
models the panic of the `unwrap_err()` position computation when `paddr` is
already a key of the reverse map (that computation precedes the `exposed`
insert in the source, so on panic nothing has been inserted). -/
def set_address (s : GlobalStateInner) (alloc_id paddr : Nat) : Option GlobalStateInner :=
  match insertIP s.int_to_ptr_map paddr alloc_id with
  | none => none
  | some m =>
    some { s with
      exposed := alloc_id :: s.exposed
      int_to_ptr_map := m
      base_addr := (alloc_id, paddr) :: s.base_addr }

/-- align_addr from the source: round `addr` up to the smallest multiple of
`align` that is `≥ addr`. (The source's `strict_add` is exact on `Nat`.) -/
def align_addr (addr align : Nat) : Nat :=
  if addr % align = 0 then addr else addr + align - addr % align

/-- Outcome of one `alloc_id_from_addr` call. `panicked` models any Rust
panic hit along the way (`assert!`, `Option::unwrap` on `None`, explicit
`panic!`, or the `unwrap_err` inside `set_address`). -/
inductive ResolveOutcome where
  | found (id : Nat)
  | noOwner
  | panicked
deriving DecidableEq

/-- Description of an allocation synthesized (and registered via
`set_address`) during resolution: its id, base address, the size and
alignment of the `Layout` it was created with, and whether it was inserted
into the machine's `cpu_alloc_set` (CPU-local materialization) as opposed to
typed-page synthesis. -/
structure SynthInfo where
  id : Nat
  base : Nat
  size : Nat
  align : Nat
  cpuLocal : Bool
deriving DecidableEq

/-- Full result of `alloc_id_from_addr`: outcome, updated global state, and
the synthesized allocation if one was created. -/
structure ResolveResult where
  outcome : ResolveOutcome
  gs : GlobalStateInner
  synthesized : Option SynthInfo

/-- Address translation step at the top of `alloc_id_from_addr` (and for the
template address of the CPU-local path): page-walk when a page table is
installed, identity otherwise. -/
def walkAddr (s : GlobalStateInner) (vaddr : Nat) : Option Nat :=
  match s.page_table with
  | some pt => pt.walk vaddr
  | none => some vaddr

/-- Typed-page synthesis from `alloc_id_from_addr` (both the `Err(0)` and
the out-of-bounds-predecessor arm contain this block): if the page holding
`addr` is `Typed { type_size }`, reserve a fresh id, create an allocation of
layout (`type_size`, `type_size`) at `addr` rounded down to a multiple of
`type_size`, register it via `set_address`, and return it. `none` means the
page is `Untyped` and the caller falls through. -/
def typedSynth (env : Env) (fresh : Nat) (s : GlobalStateInner) (addr : Nat) :
    Option ResolveResult :=
  match env.page_states (addr / env.page_size) with
  | .Typed tsize =>
    let actual := addr - addr % tsize
    some (match set_address s fresh actual with
      | none => ⟨.panicked, s, none⟩
      | some s2 => ⟨.found fresh, s2, some ⟨fresh, actual, tsize, tsize, false⟩⟩)
  | .Untyped => none

/-- CPU-local window materialization from `alloc_id_from_addr` (the source
spells this block out twice, in the `Err(0)` arm and in the
out-of-bounds-predecessor arm). If `vaddr` lies in the current thread's
CPU-local window, translate it to the template thread's window, resolve the
template address against the reverse map, and on success clone the template
allocation (same size and alignment) at `addr - offset`, registering the
clone via `set_address` and inserting it into `cpu_alloc_set`. The template
page-walk failing propagates as `noOwner` (the source's `?`); the template
having no reverse-map predecessor is `None.unwrap()` — a panic; the
predecessor's offset being out of bounds is an explicit `panic!`. -/
def cpuLocalMaterialize (env : Env) (fresh : Nat) (s : GlobalStateInner)
    (vaddr addr : Nat) : ResolveResult :=
  if env.current_cpu_local_base ≤ vaddr ∧
      vaddr < env.current_cpu_local_base + env.cpu_local_size then
    let original_vaddr := env.cpu_local_base0 + vaddr - env.current_cpu_local_base
    match walkAddr s original_vaddr with
    | none => ⟨.noOwner, s, none⟩
    | some original_addr =>
      let step2 : Option (Nat × Nat) :=
        match searchKey s.int_to_ptr_map original_addr with
        | .hit i => some ((s.int_to_ptr_map.getD i (0, 0)).2, 0)
        | .miss 0 => none
        | .miss (p + 1) =>
          let glb_id := s.int_to_ptr_map.getD p (0, 0)
          let offset := original_addr - glb_id.1
          if offset < env.alloc_size glb_id.2 then some (glb_id.2, offset) else none
      match step2 with
      | none => ⟨.panicked, s, none⟩
      | some (original_id, offset) =>
        let sz := env.alloc_size original_id
        let al := env.alloc_align original_id
        match set_address s fresh (addr - offset) with
        | none => ⟨.panicked, s, none⟩
        | some s2 => ⟨.found fresh, s2, some ⟨fresh, addr - offset, sz, al, true⟩⟩
  else ⟨.noOwner, s, none⟩

/-- The pure structural part of `alloc_id_from_addr`'s reverse-map lookup at
an (already translated, already size-adjusted) address: exact hit returns
that entry's id; no predecessor is a miss; a strict-predecessor entry
`(glb, id)` owns the address iff `addr - glb` is strictly less than the
allocation's size. -/
def structuralHit (env : Env) (s : GlobalStateInner) (addr : Nat) : Option Nat :=
  match searchKey s.int_to_ptr_map addr with
  | .hit i => some ((s.int_to_ptr_map.getD i (0, 0)).2)
  | .miss 0 => none
  | .miss (p + 1) =>
    let glb_id := s.int_to_ptr_map.getD p (0, 0)
    if addr - glb_id.1 < env.alloc_size glb_id.2 then some glb_id.2 else none

/-- alloc_id_from_addr from the source. `fresh` is the id
`tcx.reserve_alloc_id()` would hand out if a synthesis path runs. The
leading `assert!(provenance_mode != Strict)` is a panic when violated. A
failing page walk is the source's `?` — the whole call returns `None`. The
probe address is `addr` for a non-negative access size and `addr - 1`
(saturating, as `u64::saturating_sub`) for a negative one. A structurally
found id is returned only if it is exposed; misses fall through to
typed-page synthesis and then CPU-local materialization. -/
def alloc_id_from_addr (env : Env) (fresh : Nat) (s : GlobalStateInner)
    (vaddr : Nat) (size : Int) : ResolveResult :=
  if s.provenance_mode = ProvenanceMode.Strict then ⟨.panicked, s, none⟩
  else
    match walkAddr s vaddr with
    | none => ⟨.noOwner, s, none⟩
    | some addr0 =>
      let addr := if 0 ≤ size then addr0 else addr0 - 1
      match searchKey s.int_to_ptr_map addr with
      | .hit i =>
        let id := (s.int_to_ptr_map.getD i (0, 0)).2
        if id ∈ s.exposed then ⟨.found id, s, none⟩ else ⟨.noOwner, s, none⟩
      | .miss 0 =>
        match typedSynth env fresh s addr with
        | some r => r
        | none => cpuLocalMaterialize env fresh s vaddr addr
      | .miss (p + 1) =>
        let glb_id := s.int_to_ptr_map.getD p (0, 0)
        let offset := addr - glb_id.1
        if offset < env.alloc_size glb_id.2 then
          if glb_id.2 ∈ s.exposed then ⟨.found glb_id.2, s, none⟩
          else ⟨.noOwner, s, none⟩
        else
          match typedSynth env fresh s addr with
          | some r => r
          | none => cpuLocalMaterialize env fresh s vaddr addr

/-- Per-thread state read and written by the stack branch of
`addr_from_alloc_id_uncached`: the thread's private stack cursor and stack
floor. Modelled from the spec for the thread manager (not in the analyzed
source): the stack grows downward from a per-thread cursor toward
`stack_bottom`. -/
structure ThreadState where
  next_stack_addr : Nat
  stack_bottom : Nat
deriving DecidableEq

/-- Outcome of an address-assignment call: a base address, the
`AddressSpaceFull` exhaustion error, or a panic. -/
inductive AssignOutcome where
  | ok (addr : Nat)
  | exhausted
  | panicked
deriving DecidableEq

/-- Result of an assignment call: outcome plus updated global and thread
state. -/
structure AssignResult where
  outcome : AssignOutcome
  gs : GlobalStateInner
  thr : ThreadState

/-- addr_from_alloc_id_uncached from the source. `slack` is the value
`rng.gen_range(0..16)` produced; `reuse_result` is the result of
`reuse.take_addr` (the `ReusePool` lives in the missing `reuse_pool.rs`, so
its answer is passed in as an oracle; the accompanying clock acquisition is
an external side effect with no footprint in this state). The leading
`assert!(!matches!(kind, AllocKind::Dead))` is a panic when violated. In
native-lib mode the host backing store's address is used directly
(`native_addr` oracle). Otherwise, for `Stack` the thread cursor is
decremented by `max(size, 1)` and rounded down to the alignment, failing
when the result crosses the stack floor; for other kinds the CPU-local or
heap/global cursor (selected by `cpu_alloc_set` membership) plus the random
slack is rounded up with `align_addr`, failing when the result reaches the
region limit, and the cursor advances past `max(size, 1)` more bytes,
failing when that overflows `u64` (`checked_add`) or exceeds the target's
usize maximum. -/
def addr_from_alloc_id_uncached (env : Env) (s : GlobalStateInner) (thr : ThreadState)
    (alloc_id : Nat) (memory_kind : MemoryKind) (slack : Nat)
    (reuse_result : Option Nat) : AssignResult :=
  if env.alloc_dead alloc_id then ⟨.panicked, s, thr⟩
  else if env.native then ⟨.ok (env.native_addr alloc_id), s, thr⟩
  else
    match reuse_result with
    | some reuse_addr => ⟨.ok reuse_addr, s, thr⟩
    | none =>
      let size := env.alloc_size alloc_id
      let align := env.alloc_align alloc_id
      if memory_kind = MemoryKind.Stack then
        let base1 := thr.next_stack_addr - max size 1
        let base := base1 - base1 % align
        if base < thr.stack_bottom then ⟨.exhausted, s, thr⟩
        else ⟨.ok base, s, { thr with next_stack_addr := base }⟩
      else
        let cursor :=
          if env.cpu_alloc alloc_id then s.next_cpu_local_addr else s.next_base_addr
        let limit :=
          if env.cpu_alloc alloc_id then env.cpu_local_end + env.kcbv
          else env.stack_begin + env.kcbv
        if cursor + slack ≥ 2 ^ 64 then ⟨.exhausted, s, thr⟩
        else
          let base := align_addr (cursor + slack) align
          if base ≥ limit then ⟨.exhausted, s, thr⟩
          else if base + max size 1 ≥ 2 ^ 64 then ⟨.exhausted, s, thr⟩
          else if base + max size 1 > env.target_usize_max then ⟨.exhausted, s, thr⟩
          else
            let s2 :=
              if env.cpu_alloc alloc_id then
                { s with next_cpu_local_addr := base + max size 1 }
              else { s with next_base_addr := base + max size 1 }
            ⟨.ok base, s2, thr⟩

/-- addr_from_alloc_id from the source. The cached path returns
`base_addr[id] + KERNEL_CODE_BASE_VADDR` and changes nothing. The uncached
path picks an address, translates it (page walk when a page table is
installed — the `unwrap()` there is a panic on walk failure — otherwise
subtract `KERNEL_CODE_BASE_VADDR`), stores the translated address in the
forward map, inserts it into the reverse map (the `unwrap_err()` is a panic
when the address is already a key), and returns the untranslated
`base_vaddr`. -/
def addr_from_alloc_id (env : Env) (s : GlobalStateInner) (thr : ThreadState)
    (alloc_id : Nat) (memory_kind : MemoryKind) (slack : Nat)
    (reuse_result : Option Nat) : AssignResult :=
  match lookupA s.base_addr alloc_id with
  | some addr => ⟨.ok (addr + env.kcbv), s, thr⟩
  | none =>
    match addr_from_alloc_id_uncached env s thr alloc_id memory_kind slack reuse_result with
    | ⟨.ok base_vaddr, s1, thr1⟩ =>
      let pb :=
        match s1.page_table with
        | some pt => pt.walk base_vaddr
        | none => some (base_vaddr - env.kcbv)
      match pb with
      | none => ⟨.panicked, s1, thr1⟩
      | some base_paddr =>
        match insertIP s1.int_to_ptr_map base_paddr alloc_id with
        | none => ⟨.panicked, s1, thr1⟩
        | some m =>
          ⟨.ok base_vaddr,
            { s1 with
              base_addr := (alloc_id, base_paddr) :: s1.base_addr
              int_to_ptr_map := m },
            thr1⟩
    | ⟨.exhausted, s1, thr1⟩ => ⟨.exhausted, s1, thr1⟩
    | ⟨.panicked, s1, thr1⟩ => ⟨.panicked, s1, thr1⟩

/-- MiriMachine::free_alloc_id from the source: look up the dead
allocation's address in the forward map (`unwrap` — panic when absent),
find that address in the reverse map (`unwrap` — panic when absent), remove
that entry and `assert_eq!` that it is exactly `(addr, dead_id)` (panic
otherwise), and remove the id from the exposed set. The forward-map entry is
deliberately retained. The freed range is then handed to
`reuse.add_addr` (in the missing `reuse_pool.rs`), which records it together
with a release clock and touches none of the state modelled here. `none`
models the panics. -/
def free_alloc_id (s : GlobalStateInner) (dead_id : Nat) : Option GlobalStateInner :=
  match lookupA s.base_addr dead_id with
  | none => none
  | some addr =>
    match searchKey s.int_to_ptr_map addr with
    | .miss _ => none
    | .hit i =>
      let removed := s.int_to_ptr_map.getD i (0, 0)
      if removed = (addr, dead_id) then
        some { s with
          int_to_ptr_map := s.int_to_ptr_map.eraseIdx i
          exposed := s.exposed.filter (fun x => x ≠ dead_id) }
      else none

/-- Warning-deduplication state of `ptr_from_addr_cast`: the source keeps a
`thread_local!` set `PAST_WARNINGS` of `Span`s per host thread; we model the
family of per-thread sets as one list of (thread, span) pairs. -/
structure CastGlobal where
  past_warnings : List (Nat × Nat)
deriving DecidableEq

/-- Outcome of `ptr_from_addr_cast`: a wildcard-provenance pointer at the
given address, or the `Int2PtrWithStrictProvenance` machine stop. -/
inductive CastOutcome where
  | okWildcard (addr : Nat)
  | strictStop
deriving DecidableEq

/-- Result of one `ptr_from_addr_cast` call: outcome, the warning it emitted
(if any: the span, and the `details` flag that is set when this thread's
warning set was empty), and the updated dedup state. -/
structure CastResult where
  outcome : CastOutcome
  warning : Option (Nat × Bool)
  st : CastGlobal
deriving DecidableEq

/-- ptr_from_addr_cast from the source, for host thread `thread` at source
location `span`. Default mode always succeeds with a wildcard pointer and
emits the precision-loss warning exactly when `span` was not yet in this
thread's `PAST_WARNINGS` set (with `details` set when that set was empty);
Strict mode stops with `Int2PtrWithStrictProvenance`; Permissive succeeds
silently. No `AllocId` lookup happens here. -/
def ptr_from_addr_cast (mode : ProvenanceMode) (thread span : Nat)
    (st : CastGlobal) (addr : Nat) : CastResult :=
  match mode with
  | .Default =>
    let mine := st.past_warnings.filter (fun p => p.1 = thread)
    let first := mine = ([] : List (Nat × Nat))
    if (thread, span) ∈ st.past_warnings then ⟨.okWildcard addr, none, st⟩
    else
      ⟨.okWildcard addr, some (span, first),
        ⟨(thread, span) :: st.past_warnings⟩⟩
  | .Strict => ⟨.strictStop, none, st⟩
  | .Permissive => ⟨.okWildcard addr, none, st⟩

/-- Run a sequence of int2ptr casts (each given as thread, span, address) in
a fixed provenance mode, collecting the (thread, span) pairs of the warnings
emitted, in order. -/
def runCasts (mode : ProvenanceMode) (st : CastGlobal) :
    List (Nat × Nat × Nat) → List (Nat × Nat) × CastGlobal
  | [] => ([], st)
  | (t, sp, a) :: rest =>
    let r := ptr_from_addr_cast mode t sp st a
    let rec0 := runCasts mode r.st rest
    (((r.warning.map (fun w => (t, w.1))).toList) ++ rec0.1, rec0.2)

/-- Number of warnings a cast sequence emitted at source location `span`
(across all host threads — the spec's "process-wide" count). -/
def warnsAtSpan (ws : List (Nat × Nat)) (span : Nat) : Nat :=
  (ws.filter (fun p => p.2 = span)).length

/-- Number of warnings a cast sequence emitted at source location `span` on
host thread `t`. -/
def warnsAtThreadSpan (ws : List (Nat × Nat)) (t span : Nat) : Nat :=
  (ws.filter (fun p => p.1 = t ∧ p.2 = span)).length

/-- Whole-machine state threaded through a run of interpreter-facing
operations: the global address state, the active thread's stack fields, the
`tcx.reserve_alloc_id()` counter (every id ever handed out is below it), and
the set of allocations the interpreter has freed (the liveness oracle). -/
structure MState where
  gs : GlobalStateInner
  thr : ThreadState
  next_alloc_id : Nat
  dead : List Nat

/-- expose_ptr from the source: a no-op in Strict mode and for dead
allocations; otherwise insert into the exposed set. (The forwarding to the
borrow tracker is outside this state.) -/
def expose_ptr (m : MState) (id : Nat) : MState :=
  if m.gs.provenance_mode = ProvenanceMode.Strict then m
  else if id ∈ m.dead then m
  else { m with gs := { m.gs with exposed := id :: m.gs.exposed } }

/-- One interpreter-facing operation on the address-space manager, with the
oracle data its call site supplies (`slack` and `reuse_result` for
assignment). -/
inductive Op where
  | assign (id : Nat) (kind : MemoryKind) (slack : Nat) (reuse_result : Option Nat)
  | expose (id : Nat)
  | free (id : Nat)
  | resolve (vaddr : Nat) (size : Int)

/-- One step of the machine. Assignment is performed for ids the
interpreter actually holds — ids below the reservation counter that are
still live (`addr_from_alloc_id` asserts liveness); other requests leave the
state unchanged. A free that panics (id without an address) leaves the state
unchanged; a successful free records the id as dead. A resolve hands
`next_alloc_id` to `alloc_id_from_addr` as the id `reserve_alloc_id` would
produce, and bumps the counter when a synthesis actually happened. -/
def step (env : Env) (m : MState) : Op → MState
  | .assign id kind slack reuse_result =>
    if id < m.next_alloc_id ∧ id ∉ m.dead then
      let r := addr_from_alloc_id env m.gs m.thr id kind slack reuse_result
      { m with gs := r.gs, thr := r.thr }
    else m
  | .expose id => expose_ptr m id
  | .free id =>
    match free_alloc_id m.gs id with
    | some gs2 => { m with gs := gs2, dead := id :: m.dead }
    | none => m
  | .resolve vaddr size =>
    let r := alloc_id_from_addr env m.next_alloc_id m.gs vaddr size
    { m with
      gs := r.gs
      next_alloc_id := if r.synthesized.isSome then m.next_alloc_id + 1 else m.next_alloc_id }

/-- Run a list of operations left to right. -/
def steps (env : Env) (m : MState) : List Op → MState
  | [] => m
  | op :: rest => steps env (step env m op) rest

/-- The machine invariant tying freed ids to the global state: every freed
id is absent from the exposed set and below the reservation counter, and
every forward-map id is below the reservation counter. -/
def MInv (m : MState) : Prop :=
  (∀ h ∈ m.dead, h ∉ m.gs.exposed ∧ h < m.next_alloc_id) ∧
    (∀ p ∈ m.gs.base_addr, p.1 < m.next_alloc_id)

instance (m : MState) : Decidable (MInv m) := by
  unfold MInv; infer_instance

/-- A hit reported by `searchKey` is a real index whose entry has the
searched key. -/
theorem searchKey_hit_getD {l : List (Nat × Nat)} {k i : Nat}
    (h : searchKey l k = .hit i) : i < l.length ∧ (l.getD i (0, 0)).1 = k := by
  induction l generalizing i with
  | nil => simp [searchKey] at h
  | cons a rest ih =>
    rw [searchKey] at h
    by_cases h1 : k < a.1
    · simp [h1] at h
    · by_cases h2 : k = a.1
      · simp [h1, h2] at h
        simp [← h, List.getD, h2]
      · simp [h1, h2] at h
        revert h
        cases hr : searchKey rest k with
        | hit j =>
          intro h
          obtain ⟨hl, hg⟩ := ih hr
          cases h
          constructor
          · simpa using Nat.succ_lt_succ hl
          · simpa [List.getD] using hg
        | miss j => intro h; cases h

/-- Inserting at the insertion point `searchKey` reported makes the key an
exact hit at that index, with the inserted entry there. -/
theorem searchKey_insertAt {l : List (Nat × Nat)} {b p : Nat} (id : Nat)
    (h : searchKey l b = .miss p) :
    searchKey (insertAt l p (b, id)) b = .hit p ∧
      (insertAt l p (b, id)).getD p (0, 0) = (b, id) := by
  induction l generalizing p with
  | nil =>
    rw [searchKey] at h
    cases h
    simp [insertAt, searchKey, List.getD]
  | cons a rest ih =>
    rw [searchKey] at h
    by_cases h1 : b < a.1
    · simp [h1] at h
      cases h
      simp [insertAt, searchKey, List.getD]
    · by_cases h2 : b = a.1
      · simp [h1, h2] at h
      · simp [h1, h2] at h
        revert h
        cases hr : searchKey rest b with
        | hit j => intro h; cases h
        | miss j =>
          intro h
          cases h
          obtain ⟨hs, hg⟩ := ih hr
          constructor
          · rw [show insertAt (a :: rest) (j + 1) (b, id) = a :: insertAt rest j (b, id) from rfl]
            rw [searchKey, if_neg h1, if_neg h2, hs]
          · simpa [insertAt, List.getD] using hg

/-- Appending an entry whose key is strictly larger than every existing key
makes that key an exact hit at the old length. -/
theorem searchKey_append {l : List (Nat × Nat)} {b : Nat} (id : Nat)
    (h : ∀ q ∈ l, q.1 < b) :
    searchKey (l ++ [(b, id)]) b = .hit l.length ∧
      (l ++ [(b, id)]).getD l.length (0, 0) = (b, id) := by
  induction l with
  | nil => simp [searchKey, List.getD]
  | cons a rest ih =>
    have ha : a.1 < b := h a (by simp)
    have hrest : ∀ q ∈ rest, q.1 < b := fun q hq => h q (by simp [hq])
    obtain ⟨hs, hg⟩ := ih hrest
    constructor
    · rw [List.cons_append, searchKey, if_neg (by omega), if_neg (by omega), hs]
      rfl
    · simp [List.getD]

/-- Membership in an `insertAt` result. -/
theorem insertAt_mem {l : List (Nat × Nat)} {p : Nat} {x y : Nat × Nat}
    (h : x ∈ insertAt l p y) : x = y ∨ x ∈ l := by
  induction l generalizing p with
  | nil =>
    cases p <;> simp [insertAt] at h <;> simp [h]
  | cons a rest ih =>
    cases p with
    | zero =>
      simp [insertAt] at h
      rcases h with h | h | h <;> simp [h]
    | succ n =>
      simp [insertAt] at h
      rcases h with h | h
      · simp [h]
      · rcases ih h with h' | h' <;> simp [h']

/-- Membership in a successful `insertIP` result. -/
theorem insertIP_mem {l : List (Nat × Nat)} {b id : Nat} {m : List (Nat × Nat)}
    {x : Nat × Nat} (h : insertIP l b id = some m) (hx : x ∈ m) :
    x = (b, id) ∨ x ∈ l := by
  unfold insertIP at h
  split at h
  · cases h
    simp at hx
    tauto
  · split at h
    · cases h
    · cases h
      exact insertAt_mem hx

/-- The inserted element is a member of any `insertAt` result. -/
theorem insertAt_mem_self (l : List (Nat × Nat)) (p : Nat) (y : Nat × Nat) :
    y ∈ insertAt l p y := by
  induction l generalizing p with
  | nil => cases p <;> simp [insertAt]
  | cons a rest ih =>
    cases p with
    | zero => simp [insertAt]
    | succ n =>
      simp [insertAt]
      exact Or.inr (ih n)

/-- A successful `insertIP` contains the inserted entry. -/
theorem insertIP_mem_self {l : List (Nat × Nat)} {b id : Nat} {m : List (Nat × Nat)}
    (h : insertIP l b id = some m) : (b, id) ∈ m := by
  unfold insertIP at h
  split at h
  · cases h; simp
  · split at h
    · cases h
    · cases h
      exact insertAt_mem_self _ _ _

/-- Field-level description of a successful `set_address`. -/
theorem set_address_eq {s s2 : GlobalStateInner} {id b : Nat}
    (h : set_address s id b = some s2) :
    s2.exposed = id :: s.exposed ∧ s2.base_addr = (id, b) :: s.base_addr ∧
      insertIP s.int_to_ptr_map b id = some s2.int_to_ptr_map ∧
      s2.next_base_addr = s.next_base_addr ∧
      s2.next_cpu_local_addr = s.next_cpu_local_addr ∧
      s2.provenance_mode = s.provenance_mode ∧
      s2.page_table = s.page_table := by
  unfold set_address at h
  split at h
  · cases h
  · rename_i m hm
    cases h
    exact ⟨rfl, rfl, hm, rfl, rfl, rfl, rfl⟩

/-- Every run of `typedSynth` either leaves the state untouched and finds
nothing (the panic case), or registers the fresh id via `set_address` and
returns it. -/
theorem typedSynth_cases {env : Env} {f : Nat} {s : GlobalStateInner} {addr : Nat}
    {r : ResolveResult} (h : typedSynth env f s addr = some r) :
    (r.gs = s ∧ r.synthesized = none ∧ ∀ x, r.outcome ≠ .found x) ∨
      (∃ b, set_address s f b = some r.gs ∧ r.synthesized.isSome ∧
        r.outcome = .found f) := by
  unfold typedSynth at h
  split at h
  · rename_i tsize hp
    cases h
    cases hsa : set_address s f (addr - addr % tsize) with
    | none => left; simp [hsa]
    | some s2 =>
      right
      exact ⟨addr - addr % tsize, by simp [hsa], by simp [hsa], by simp [hsa]⟩
  · cases h

/-- Every run of `cpuLocalMaterialize` either leaves the state untouched
and finds nothing (out of window, failed template walk, or panic), or
registers the fresh id via `set_address` and returns it. -/
theorem cpuLocal_cases (env : Env) (f : Nat) (s : GlobalStateInner) (vaddr addr : Nat) :
    ((cpuLocalMaterialize env f s vaddr addr).gs = s ∧
        (cpuLocalMaterialize env f s vaddr addr).synthesized = none ∧
        ∀ x, (cpuLocalMaterialize env f s vaddr addr).outcome ≠ .found x) ∨
      (∃ b, set_address s f b = some (cpuLocalMaterialize env f s vaddr addr).gs ∧
        (cpuLocalMaterialize env f s vaddr addr).synthesized.isSome ∧
        (cpuLocalMaterialize env f s vaddr addr).outcome = .found f) := by
  unfold cpuLocalMaterialize
  split
  · cases hw : walkAddr s (env.cpu_local_base0 + vaddr - env.current_cpu_local_base) with
    | none => left; simp [hw]
    | some oa =>
      simp only [hw]
      cases hk : searchKey s.int_to_ptr_map oa with
      | hit i =>
        simp only [hk]
        cases hsa : set_address s f (addr - 0) with
        | none =>
          rw [Nat.sub_zero] at hsa
          left; simp [hsa]
        | some s2 =>
          rw [Nat.sub_zero] at hsa
          right; exact ⟨addr, by simp [hsa], by simp [hsa], by simp [hsa]⟩
      | miss p =>
        cases p with
        | zero => left; simp [hk]
        | succ q =>
          simp only [hk]
          generalize s.int_to_ptr_map.getD q (0, 0) = gq
          by_cases hin : oa - gq.1 < env.alloc_size gq.2
          · simp only [if_pos hin]
            cases hsa : set_address s f (addr - (oa - gq.1)) with
            | none => left; simp [hsa]
            | some s2 =>
              right
              exact ⟨addr - (oa - gq.1), by simp [hsa], by simp [hsa], by simp [hsa]⟩
          · left; simp [if_neg hin]
  · left; simp

/-- Master case split for `alloc_id_from_addr`: either the state is left
untouched, nothing is synthesized and any found id was already exposed, or
the fresh id is registered via `set_address` and returned. -/
theorem resolve_cases (env : Env) (f : Nat) (s : GlobalStateInner) (vaddr : Nat)
    (size : Int) :
    ((alloc_id_from_addr env f s vaddr size).gs = s ∧
        (alloc_id_from_addr env f s vaddr size).synthesized = none ∧
        ∀ x, (alloc_id_from_addr env f s vaddr size).outcome = .found x →
          x ∈ s.exposed) ∨
      (∃ b, set_address s f b = some (alloc_id_from_addr env f s vaddr size).gs ∧
        (alloc_id_from_addr env f s vaddr size).synthesized.isSome ∧
        (alloc_id_from_addr env f s vaddr size).outcome = .found f) := by
  unfold alloc_id_from_addr
  split
  · left; simp
  · cases hw : walkAddr s vaddr with
    | none => left; simp [hw]
    | some addr0 =>
      simp only [hw]
      cases hk : searchKey s.int_to_ptr_map (if 0 ≤ size then addr0 else addr0 - 1) with
      | hit i =>
        simp only [hk]
        generalize s.int_to_ptr_map.getD i (0, 0) = gi
        by_cases he : gi.2 ∈ s.exposed
        · left
          refine ⟨by simp [he], by simp [he], ?_⟩
          intro x hx
          simp [he] at hx
          exact hx ▸ he
        · left
          refine ⟨by simp [he], by simp [he], ?_⟩
          intro x hx
          simp [he] at hx
      | miss p =>
        cases p with
        | zero =>
          simp only [hk]
          cases ht : typedSynth env f s (if 0 ≤ size then addr0 else addr0 - 1) with
          | none =>
            simp only [ht]
            rcases cpuLocal_cases env f s vaddr (if 0 ≤ size then addr0 else addr0 - 1)
              with h | h
            · exact Or.inl ⟨h.1, h.2.1, fun x hx => absurd hx (h.2.2 x)⟩
            · exact Or.inr h
          | some r =>
            simp only [ht]
            rcases typedSynth_cases ht with h | h
            · exact Or.inl ⟨h.1, h.2.1, fun x hx => absurd hx (h.2.2 x)⟩
            · exact Or.inr h
        | succ q =>
          simp only [hk]
          generalize s.int_to_ptr_map.getD q (0, 0) = gq
          by_cases hin :
              (if 0 ≤ size then addr0 else addr0 - 1) - gq.1 < env.alloc_size gq.2
          · simp only [if_pos hin]
            by_cases he : gq.2 ∈ s.exposed
            · left
              refine ⟨by simp [he], by simp [he], ?_⟩
              intro x hx
              simp [he] at hx
              exact hx ▸ he
            · left
              refine ⟨by simp [he], by simp [he], ?_⟩
              intro x hx
              simp [he] at hx
          · simp only [if_neg hin]
            cases ht : typedSynth env f s (if 0 ≤ size then addr0 else addr0 - 1) with
            | none =>
              simp only [ht]
              rcases cpuLocal_cases env f s vaddr (if 0 ≤ size then addr0 else addr0 - 1)
                with h | h
              · exact Or.inl ⟨h.1, h.2.1, fun x hx => absurd hx (h.2.2 x)⟩
              · exact Or.inr h
            | some r =>
              simp only [ht]
              rcases typedSynth_cases ht with h | h
              · exact Or.inl ⟨h.1, h.2.1, fun x hx => absurd hx (h.2.2 x)⟩
              · exact Or.inr h


theorem uncached_gs (env : Env) (s : GlobalStateInner) (thr : ThreadState)
    (id : Nat) (kind : MemoryKind) (slack : Nat) (rr : Option Nat) :
    ∃ nb nc, (addr_from_alloc_id_uncached env s thr id kind slack rr).gs =
      { s with next_base_addr := nb, next_cpu_local_addr := nc } := by
  unfold addr_from_alloc_id_uncached
  repeat' split
  all_goals try (simp only []; repeat' split)
  all_goals exact ⟨_, _, rfl⟩

/-- `addr_from_alloc_id_uncached` only moves allocation cursors: maps,
exposed set, mode and page table are untouched. -/
theorem uncached_state (env : Env) (s : GlobalStateInner) (thr : ThreadState)
    (id : Nat) (kind : MemoryKind) (slack : Nat) (rr : Option Nat) :
    (addr_from_alloc_id_uncached env s thr id kind slack rr).gs.int_to_ptr_map =
        s.int_to_ptr_map ∧
      (addr_from_alloc_id_uncached env s thr id kind slack rr).gs.base_addr =
        s.base_addr ∧
      (addr_from_alloc_id_uncached env s thr id kind slack rr).gs.exposed =
        s.exposed ∧
      (addr_from_alloc_id_uncached env s thr id kind slack rr).gs.provenance_mode =
        s.provenance_mode ∧
      (addr_from_alloc_id_uncached env s thr id kind slack rr).gs.page_table =
        s.page_table := by
  obtain ⟨nb, nc, hg⟩ := uncached_gs env s thr id kind slack rr
  rw [hg]
  exact ⟨rfl, rfl, rfl, rfl, rfl⟩

/-- `addr_from_alloc_id` never touches the exposed set, and any forward-map
entry it creates is for the requested id. -/
theorem assign_state (env : Env) (s : GlobalStateInner) (thr : ThreadState)
    (id : Nat) (kind : MemoryKind) (slack : Nat) (rr : Option Nat) :
    (addr_from_alloc_id env s thr id kind slack rr).gs.exposed = s.exposed ∧
      ∀ p ∈ (addr_from_alloc_id env s thr id kind slack rr).gs.base_addr,
        p.1 = id ∨ p ∈ s.base_addr := by
  obtain ⟨hm, hb, he, hpm, hpt⟩ := uncached_state env s thr id kind slack rr
  unfold addr_from_alloc_id
  cases hl : lookupA s.base_addr id with
  | some a =>
    simp only [hl]
    exact ⟨by trivial, fun p hp => Or.inr hp⟩
  | none =>
    simp only [hl]
    cases hu : addr_from_alloc_id_uncached env s thr id kind slack rr with
    | mk outc s1 thr1 =>
      rw [hu] at hm hb he
      simp only at hm hb he
      cases outc with
      | ok base_vaddr =>
        cases hpb :
            (match s1.page_table with
              | some pt => pt.walk base_vaddr
              | none => some (base_vaddr - env.kcbv)) with
        | none =>
          simp only [hu, hpb]
          refine ⟨he, ?_⟩
          intro p hp
          right
          rw [← hb]
          exact hp
        | some bp =>
          cases hip : insertIP s1.int_to_ptr_map bp id with
          | none =>
            simp only [hu, hpb, hip]
            refine ⟨he, ?_⟩
            intro p hp
            right
            rw [← hb]
            exact hp
          | some mm =>
            simp only [hu, hpb, hip]
            refine ⟨he, ?_⟩
            intro p hp
            simp only [List.mem_cons] at hp
            rcases hp with hp | hp
            · left
              rw [hp]
            · right
              rw [← hb]
              exact hp
      | exhausted =>
        simp only [hu]
        refine ⟨he, ?_⟩
        intro p hp
        right
        rw [← hb]
        exact hp
      | panicked =>
        simp only [hu]
        refine ⟨he, ?_⟩
        intro p hp
        right
        rw [← hb]
        exact hp

/-- Field-level description of a successful `free_alloc_id`: the reverse-map
entry at the found index is removed, the id leaves the exposed set, and the
forward map (with everything else) is retained unchanged. -/
theorem free_state {s s2 : GlobalStateInner} {id : Nat}
    (h : free_alloc_id s id = some s2) :
    (∃ addr i, lookupA s.base_addr id = some addr ∧
        searchKey s.int_to_ptr_map addr = .hit i ∧
        s.int_to_ptr_map.getD i (0, 0) = (addr, id) ∧
        s2.int_to_ptr_map = s.int_to_ptr_map.eraseIdx i) ∧
      s2.exposed = s.exposed.filter (fun x => x ≠ id) ∧
      s2.base_addr = s.base_addr ∧
      s2.provenance_mode = s.provenance_mode ∧
      s2.page_table = s.page_table := by
  unfold free_alloc_id at h
  cases hl : lookupA s.base_addr id with
  | none =>
    simp only [hl] at h
    exact Option.noConfusion h
  | some addr =>
    simp only [hl] at h
    cases hk : searchKey s.int_to_ptr_map addr with
    | miss p =>
      simp only [hk] at h
      exact Option.noConfusion h
    | hit i =>
      simp only [hk] at h
      split at h
      · rename_i hrem
        injection h with h2
        subst h2
        exact ⟨⟨addr, i, rfl, hk, hrem, rfl⟩, rfl, rfl, rfl, rfl⟩
      · cases h

/-- A successful association-list lookup is a membership. -/
theorem lookupA_mem {l : List (Nat × Nat)} {k v : Nat} (h : lookupA l k = some v) :
    (k, v) ∈ l := by
  induction l with
  | nil => cases h
  | cons a rest ih =>
    unfold lookupA at h
    split at h
    · rename_i hk
      injection h with h2
      subst hk
      subst h2
      left
    · right
      exact ih h

/-- The dead set only grows along a step. -/
theorem step_dead_mono (env : Env) (m : MState) (op : Op) :
    ∀ x ∈ m.dead, x ∈ (step env m op).dead := by
  intro x hx
  cases op with
  | assign id kind slack rr =>
    simp only [step]
    split
    · exact hx
    · exact hx
  | expose id =>
    simp only [step]
    unfold expose_ptr
    split
    · exact hx
    · split
      · exact hx
      · exact hx
  | free id =>
    simp only [step]
    cases hf : free_alloc_id m.gs id with
    | none => exact hx
    | some gs2 =>
      simp only [List.mem_cons]
      exact Or.inr hx
  | resolve vaddr size =>
    simp only [step]
    exact hx

/-- Every step preserves the machine invariant. -/
theorem step_inv (env : Env) (m : MState) (op : Op) (hI : MInv m) :
    MInv (step env m op) := by
  obtain ⟨hdead, hbase⟩ := hI
  cases op with
  | assign id kind slack rr =>
    simp only [step]
    split
    · rename_i hg
      obtain ⟨he, hb⟩ := assign_state env m.gs m.thr id kind slack rr
      refine ⟨?_, ?_⟩
      · intro x hx
        obtain ⟨hx1, hx2⟩ := hdead x hx
        exact ⟨by rw [he]; exact hx1, hx2⟩
      · intro p hp
        rcases hb p hp with hp1 | hp1
        · rw [hp1]; exact hg.1
        · exact hbase p hp1
    · exact ⟨hdead, hbase⟩
  | expose id =>
    simp only [step]
    unfold expose_ptr
    split
    · exact ⟨hdead, hbase⟩
    · split
      · exact ⟨hdead, hbase⟩
      · rename_i hlive
        refine ⟨?_, hbase⟩
        intro x hx
        obtain ⟨hx1, hx2⟩ := hdead x hx
        refine ⟨?_, hx2⟩
        simp only [List.mem_cons]
        rintro (hxe | hxe)
        · exact hlive (hxe ▸ hx)
        · exact hx1 hxe
  | free id =>
    simp only [step]
    cases hf : free_alloc_id m.gs id with
    | none => exact ⟨hdead, hbase⟩
    | some gs2 =>
      obtain ⟨⟨addr, i, hla, _, _, _⟩, hexp, hb2, _, _⟩ := free_state hf
      refine ⟨?_, ?_⟩
      · intro x hx
        simp only [List.mem_cons] at hx
        rcases hx with hx | hx
        · subst hx
          constructor
          · rw [hexp]
            intro hmem
            simp only [List.mem_filter, decide_eq_true_eq] at hmem
            exact hmem.2 rfl
          · exact hbase (x, addr) (lookupA_mem hla)
        · obtain ⟨hx1, hx2⟩ := hdead x hx
          refine ⟨?_, hx2⟩
          rw [hexp]
          intro hmem
          simp only [List.mem_filter] at hmem
          exact hx1 hmem.1
      · intro p hp
        rw [hb2] at hp
        exact hbase p hp
  | resolve vaddr size =>
    simp only [step]
    rcases resolve_cases env m.next_alloc_id m.gs vaddr size with hc | hc
    · obtain ⟨hgs, hsyn, _⟩ := hc
      simp only [hsyn, hgs]
      exact ⟨fun x hx => hdead x hx, hbase⟩
    · obtain ⟨b, hsa, hsyn, _⟩ := hc
      obtain ⟨hexp, hb, _, _, _, _, _⟩ := set_address_eq hsa
      simp only [hsyn, eq_self_iff_true, if_true]
      refine ⟨?_, ?_⟩
      · intro x hx
        obtain ⟨hx1, hx2⟩ := hdead x hx
        constructor
        · rw [hexp]
          simp only [List.mem_cons]
          rintro (hxe | hxe)
          · omega
          · exact hx1 hxe
        · show x < m.next_alloc_id + 1
          omega
      · intro p hp
        rw [hb] at hp
        simp only [List.mem_cons] at hp
        rcases hp with hp | hp
        · rw [hp]
          show m.next_alloc_id < m.next_alloc_id + 1
          omega
        · have := hbase p hp
          show p.1 < m.next_alloc_id + 1
          omega

/-- Running any list of operations preserves the invariant. -/
theorem steps_inv (env : Env) (m : MState) (ops : List Op) (hI : MInv m) :
    MInv (steps env m ops) := by
  induction ops generalizing m with
  | nil => exact hI
  | cons op rest ih => exact ih (step env m op) (step_inv env m op hI)

/-- Dead ids stay dead along any list of operations. -/
theorem steps_dead (env : Env) (m : MState) (ops : List Op) :
    ∀ x ∈ m.dead, x ∈ (steps env m ops).dead := by
  induction ops generalizing m with
  | nil => exact fun x hx => hx
  | cons op rest ih =>
    exact fun x hx => ih (step env m op) x (step_dead_mono env m op x hx)

/-- An id that is not exposed and is below the fresh-id counter is never the
result of a resolution. -/
theorem resolve_not_unexposed {env : Env} {f : Nat} {s : GlobalStateInner}
    {vaddr : Nat} {size : Int} {x : Nat} (hne : x ∉ s.exposed) (hlt : x < f) :
    (alloc_id_from_addr env f s vaddr size).outcome ≠ .found x := by
  intro hfound
  rcases resolve_cases env f s vaddr size with hc | hc
  · exact hne (hc.2.2 x hfound)
  · obtain ⟨b, _, _, hout⟩ := hc
    rw [hout] at hfound
    injection hfound with hfx
    omega

/-- C1: after `free_alloc_id` frees handle `h`, `h` is out of the exposed
set and out of the reverse map (its entry at its base address is removed),
while its forward-map entry is deliberately retained; and no later sequence
of operations (assignments, exposes, frees, resolutions — which only ever
register fresh reserved ids) can make any address resolution return
`Some(h)` again: every later `alloc_id_from_addr`, on any address and
access size, yields a different id or no owner, never `h`. -/
theorem freed_never_resolved (env : Env) (m : MState) (h : Nat)
    (gs2 : GlobalStateInner) (hI : MInv m)
    (hfree : free_alloc_id m.gs h = some gs2) :
    h ∉ gs2.exposed ∧ gs2.base_addr = m.gs.base_addr ∧
      (∃ addr i, lookupA m.gs.base_addr h = some addr ∧
        searchKey m.gs.int_to_ptr_map addr = .hit i ∧
        gs2.int_to_ptr_map = m.gs.int_to_ptr_map.eraseIdx i) ∧
      ∀ ops vaddr size,
        (alloc_id_from_addr env
            (steps env (step env m (.free h)) ops).next_alloc_id
            (steps env (step env m (.free h)) ops).gs vaddr size).outcome ≠
          .found h := by
  obtain ⟨⟨addr, i, hla, hk, hgetd, hmap⟩, hexp, hb2, _, _⟩ := free_state hfree
  refine ⟨?_, hb2, ⟨addr, i, hla, hk, hmap⟩, ?_⟩
  · rw [hexp]
    intro hmem
    simp only [List.mem_filter, decide_eq_true_eq] at hmem
    exact hmem.2 rfl
  · intro ops vaddr size
    have hstep : h ∈ (step env m (.free h)).dead := by
      simp only [step, hfree]
      exact List.mem_cons_self _ _
    have hI1 : MInv (step env m (.free h)) := step_inv env m (.free h) hI
    have hIs : MInv (steps env (step env m (.free h)) ops) :=
      steps_inv env (step env m (.free h)) ops hI1
    have hds : h ∈ (steps env (step env m (.free h)) ops).dead :=
      steps_dead env (step env m (.free h)) ops h hstep
    obtain ⟨hne, hlt⟩ := hIs.1 h hds
    exact resolve_not_unexposed hne hlt

/-- Concrete test environment: no page table interplay, untyped pages, an
empty CPU-local window, plain 16-byte allocations. -/
def envW : Env :=
  ⟨0, 4096, fun _ => PageState.Untyped, 0, 0, 0, fun _ => 16, fun _ => 1,
    fun _ => false, fun _ => false, false, fun _ => 0, 100000, 50000, 2 ^ 64 - 1⟩

/-- Concrete global state: one exposed allocation, id 0 at address 100. -/
def gsW : GlobalStateInner :=
  ⟨[(100, 0)], [(0, 100)], [0], 200, 300, ProvenanceMode.Default, none⟩

/-- `gsW` after freeing id 0: reverse map and exposed set emptied, forward
map retained. -/
def gsW2 : GlobalStateInner :=
  ⟨[], [(0, 100)], [], 200, 300, ProvenanceMode.Default, none⟩

/-- Concrete machine state wrapping `gsW`. -/
def mW : MState := ⟨gsW, ⟨5000, 1000⟩, 1, []⟩

theorem freed_never_resolved_witness :
    MInv mW ∧ free_alloc_id mW.gs 0 = some gsW2 ∧ 0 ∉ gsW2.exposed ∧
      (alloc_id_from_addr envW
          (steps envW (step envW mW (.free 0))
            [Op.assign 0 MemoryKind.Heap 0 none, Op.resolve 100 1]).next_alloc_id
          (steps envW (step envW mW (.free 0))
            [Op.assign 0 MemoryKind.Heap 0 none, Op.resolve 100 1]).gs 100 1).outcome ≠
        ResolveOutcome.found 0 :=
  ⟨by decide, by rfl,
    (freed_never_resolved envW mW 0 gsW2 (by decide) (by rfl)).1,
    (freed_never_resolved envW mW 0 gsW2 (by decide) (by rfl)).2.2.2
      [Op.assign 0 MemoryKind.Heap 0 none, Op.resolve 100 1] 100 1⟩

/-- When the structural reverse-map lookup finds an owner, the whole
resolution reduces to the exposure check on that owner: state untouched,
nothing synthesized. -/
theorem resolve_structural_aux {env : Env} {f : Nat} {s : GlobalStateInner}
    {vaddr : Nat} {size : Int} {addr0 i : Nat}
    (hmode : s.provenance_mode ≠ ProvenanceMode.Strict)
    (hw : walkAddr s vaddr = some addr0)
    (hhit : structuralHit env s (if 0 ≤ size then addr0 else addr0 - 1) = some i) :
    alloc_id_from_addr env f s vaddr size =
      ⟨if i ∈ s.exposed then .found i else .noOwner, s, none⟩ := by
  unfold structuralHit at hhit
  unfold alloc_id_from_addr
  rw [if_neg hmode, hw]
  simp only []
  set probe := (if 0 ≤ size then addr0 else addr0 - 1) with hprobe
  cases hk : searchKey s.int_to_ptr_map probe with
  | hit j =>
    rw [hk] at hhit
    simp only [] at hhit
    injection hhit with hhit
    simp only [hk]
    rw [hhit]
    by_cases he : i ∈ s.exposed <;> simp [he]
  | miss p =>
    cases p with
    | zero =>
      rw [hk] at hhit
      exact Option.noConfusion hhit
    | succ q =>
      rw [hk] at hhit
      simp only [] at hhit
      simp only [hk]
      set gq := s.int_to_ptr_map.getD q (0, 0) with hgq
      split at hhit
      · injection hhit with hhit
        rw [if_pos (by assumption), hhit]
        by_cases he : i ∈ s.exposed <;> simp [he]
      · exact Option.noConfusion hhit

/-- C2: a resolution whose structural reverse-map lookup finds owner `i`
returns `Some i` to the caller exactly when `i` is in the exposed set, and
returns no owner when `i` is not exposed. -/
theorem structural_resolution_requires_exposure (env : Env) (f : Nat)
    (s : GlobalStateInner) (vaddr : Nat) (size : Int) (addr0 i : Nat)
    (hmode : s.provenance_mode ≠ ProvenanceMode.Strict)
    (hw : walkAddr s vaddr = some addr0)
    (hhit : structuralHit env s (if 0 ≤ size then addr0 else addr0 - 1) = some i) :
    ((alloc_id_from_addr env f s vaddr size).outcome = .found i ↔ i ∈ s.exposed) ∧
      (i ∉ s.exposed →
        (alloc_id_from_addr env f s vaddr size).outcome = .noOwner) := by
  rw [resolve_structural_aux hmode hw hhit]
  by_cases he : i ∈ s.exposed
  · simp [he]
  · simp [he]

theorem structural_resolution_requires_exposure_witness :
    gsW.provenance_mode ≠ ProvenanceMode.Strict ∧
      walkAddr gsW 100 = some 100 ∧
      structuralHit envW gsW 100 = some 0 ∧
      ((alloc_id_from_addr envW 1 gsW 100 1).outcome = .found 0 ↔
        0 ∈ gsW.exposed) :=
  ⟨by decide, by rfl, by rfl,
    (structural_resolution_requires_exposure envW 1 gsW 100 1 100 0 (by decide)
      (by rfl) (by rfl)).1⟩

/-- On a reverse map sorted strictly by address, if `(glb, id)` is the
greatest entry at or below the probe and the probe is not an exact key,
`searchKey` reports the insertion point right after that entry. -/
theorem searchKey_glb {l : List (Nat × Nat)} {probe glb id : Nat}
    (hs : List.Pairwise (fun p q => p.1 < q.1) l)
    (hmem : (glb, id) ∈ l) (hle : glb ≤ probe)
    (hglb : ∀ q ∈ l, q.1 ≤ probe → q.1 ≤ glb)
    (hne : ∀ q ∈ l, q.1 ≠ probe) :
    ∃ p, searchKey l probe = .miss (p + 1) ∧ l.getD p (0, 0) = (glb, id) := by
  induction l with
  | nil => cases hmem
  | cons a rest ih =>
    obtain ⟨hrel, hsrest⟩ := List.pairwise_cons.mp hs
    have ha_le : a.1 ≤ probe := by
      rcases List.mem_cons.mp hmem with hm | hm
      · rw [← hm]
        exact hle
      · have := hrel (glb, id) hm
        omega
    have ha_ne : a.1 ≠ probe := hne a (List.mem_cons_self a rest)
    have hlt : ¬ probe < a.1 := by omega
    rcases List.mem_cons.mp hmem with hm | hm
    · have hag : a.1 = glb := by rw [← hm]
      have hmiss : searchKey rest probe = .miss 0 := by
        cases rest with
        | nil => rfl
        | cons b rest2 =>
          have hab : a.1 < b.1 := hrel b (List.mem_cons_self b rest2)
          have hbp : probe < b.1 := by
            by_contra hcon
            push_neg at hcon
            have := hglb b (by simp) hcon
            omega
          rw [searchKey, if_pos hbp]
      refine ⟨0, ?_, ?_⟩
      · rw [searchKey, if_neg hlt, if_neg (Ne.symm ha_ne), hmiss]
      · exact hm.symm
    · obtain ⟨p, hk, hgd⟩ :=
        ih hsrest hm (fun q hq hq2 => hglb q (List.mem_cons_of_mem a hq) hq2)
          (fun q hq => hne q (List.mem_cons_of_mem a hq))
      refine ⟨p + 1, ?_, ?_⟩
      · rw [searchKey, if_neg hlt, if_neg (Ne.symm ha_ne), hk]
      · simpa [List.getD] using hgd

/-- C5: the resolve probe is the translated address itself for a
non-negative access size and the address minus one for a negative one; at
that probe, when the reverse map (sorted strictly by address) has
`(glb, id)` as the greatest entry strictly below the probe, the structural
lookup owns the probe exactly when `probe - glb` is strictly less than the
owning allocation's size — and then the resolution returns `id` subject
only to the exposure check — and otherwise the lookup is a miss. -/
theorem probe_and_predecessor_semantics (env : Env) (f : Nat)
    (s : GlobalStateInner) (vaddr : Nat) (size : Int) (addr0 glb id : Nat)
    (hmode : s.provenance_mode ≠ ProvenanceMode.Strict)
    (hw : walkAddr s vaddr = some addr0)
    (hs : List.Pairwise (fun p q => p.1 < q.1) s.int_to_ptr_map)
    (hmem : (glb, id) ∈ s.int_to_ptr_map)
    (hle : glb ≤ (if 0 ≤ size then addr0 else addr0 - 1))
    (hglb : ∀ q ∈ s.int_to_ptr_map,
      q.1 ≤ (if 0 ≤ size then addr0 else addr0 - 1) → q.1 ≤ glb)
    (hne : ∀ q ∈ s.int_to_ptr_map,
      q.1 ≠ (if 0 ≤ size then addr0 else addr0 - 1)) :
    structuralHit env s (if 0 ≤ size then addr0 else addr0 - 1) =
      (if (if 0 ≤ size then addr0 else addr0 - 1) - glb < env.alloc_size id
        then some id else none) ∧
      ((if 0 ≤ size then addr0 else addr0 - 1) - glb < env.alloc_size id →
        (alloc_id_from_addr env f s vaddr size).outcome =
          (if id ∈ s.exposed then ResolveOutcome.found id
            else ResolveOutcome.noOwner)) := by
  obtain ⟨p, hk, hgd⟩ := searchKey_glb hs hmem hle hglb hne
  have hsh : structuralHit env s (if 0 ≤ size then addr0 else addr0 - 1) =
      (if (if 0 ≤ size then addr0 else addr0 - 1) - glb < env.alloc_size id
        then some id else none) := by
    unfold structuralHit
    rw [hk]
    simp only [hgd]
  refine ⟨hsh, ?_⟩
  intro hin
  have hres := resolve_structural_aux (f := f) hmode hw (by rw [hsh, if_pos hin])
  rw [hres]

theorem probe_and_predecessor_semantics_witness :
    walkAddr gsW 111 = some 111 ∧
      (100 : Nat) ≤ (if 0 ≤ (-1 : Int) then 111 else 111 - 1) ∧
      structuralHit envW gsW (if 0 ≤ (-1 : Int) then 111 else 111 - 1) =
        (if (if 0 ≤ (-1 : Int) then 111 else 111 - 1) - 100 < envW.alloc_size 0
          then some 0 else none) ∧
      (alloc_id_from_addr envW 1 gsW 111 (-1)).outcome =
        (if 0 ∈ gsW.exposed then ResolveOutcome.found 0
          else ResolveOutcome.noOwner) :=
  ⟨by rfl, by decide,
    (probe_and_predecessor_semantics envW 1 gsW 111 (-1) 111 100 0 (by decide)
      (by rfl) (by decide) (by decide) (by decide) (by decide) (by decide)).1,
    (probe_and_predecessor_semantics envW 1 gsW 111 (-1) 111 100 0 (by decide)
      (by rfl) (by decide) (by decide) (by decide) (by decide) (by decide)).2
      (by decide)⟩

/-- `align_addr` rounds up to a multiple of the alignment: the result is
divisible by `align`, at least `addr`, and less than `addr + align`. -/
theorem align_addr_spec (addr align : Nat) (h : 0 < align) :
    align ∣ align_addr addr align ∧ addr ≤ align_addr addr align ∧
      align_addr addr align < addr + align := by
  unfold align_addr
  by_cases h0 : addr % align = 0
  · rw [if_pos h0]
    exact ⟨Nat.dvd_of_mod_eq_zero h0, Nat.le_refl addr, by omega⟩
  · rw [if_neg h0]
    have hdm := Nat.div_add_mod addr align
    have hlt : addr % align < align := Nat.mod_lt addr h
    refine ⟨⟨addr / align + 1, ?_⟩, by omega, by omega⟩
    rw [Nat.mul_add, Nat.mul_one]
    omega

/-- Rounding down to a multiple of the alignment: `b - b % a` is divisible
by `a`, at most `b`, and greater than `b - a`. -/
theorem align_down_spec (b a : Nat) (h : 0 < a) :
    a ∣ b - b % a ∧ b - b % a ≤ b ∧ b < b - b % a + a := by
  have hdm := Nat.div_add_mod b a
  have hlt : b % a < a := Nat.mod_lt b h
  refine ⟨⟨b / a, by omega⟩, by omega, by omega⟩

/-- C4: for a fresh (reuse pool empty-handed, non-native) assignment: in the
Stack region the returned base is the thread's stack cursor minus
`max(size, 1)` rounded down to the alignment, failing with exhaustion when
that base is below the thread's stack floor; in the Heap/Global and
CPU-Local regions the returned base is the region's shared cursor plus the
random slack rounded up to the alignment (the least aligned address at or
above cursor + slack), failing with exhaustion when it reaches the region's
limit or when the allocation end exceeds the target's representable
maximum. -/
theorem fresh_assignment_formulas (env : Env) (s : GlobalStateInner)
    (thr : ThreadState) (id : Nat) (kind : MemoryKind) (slack : Nat)
    (hdead : env.alloc_dead id = false) (hnat : env.native = false)
    (halign : 0 < env.alloc_align id) (hslack : slack < 16)
    (husize : env.target_usize_max < 2 ^ 64)
    (hnof : (if env.cpu_alloc id then s.next_cpu_local_addr
      else s.next_base_addr) + slack < 2 ^ 64) :
    (kind = MemoryKind.Stack →
      ((thr.next_stack_addr - max (env.alloc_size id) 1) -
            (thr.next_stack_addr - max (env.alloc_size id) 1) %
              env.alloc_align id <
          thr.stack_bottom →
        addr_from_alloc_id_uncached env s thr id kind slack none =
          ⟨.exhausted, s, thr⟩) ∧
      (thr.stack_bottom ≤
          (thr.next_stack_addr - max (env.alloc_size id) 1) -
            (thr.next_stack_addr - max (env.alloc_size id) 1) %
              env.alloc_align id →
        ∃ base,
          addr_from_alloc_id_uncached env s thr id kind slack none =
              ⟨.ok base, s, { thr with next_stack_addr := base }⟩ ∧
            env.alloc_align id ∣ base ∧
            base ≤ thr.next_stack_addr - max (env.alloc_size id) 1 ∧
            thr.next_stack_addr - max (env.alloc_size id) 1 <
              base + env.alloc_align id)) ∧
    (kind ≠ MemoryKind.Stack →
      ∀ cursor limit,
        cursor = (if env.cpu_alloc id then s.next_cpu_local_addr
          else s.next_base_addr) →
        limit = (if env.cpu_alloc id then env.cpu_local_end + env.kcbv
          else env.stack_begin + env.kcbv) →
        ((limit ≤ align_addr (cursor + slack) (env.alloc_align id) ∨
            env.target_usize_max <
              align_addr (cursor + slack) (env.alloc_align id) +
                max (env.alloc_size id) 1) →
          (addr_from_alloc_id_uncached env s thr id kind slack none).outcome =
            .exhausted) ∧
        (align_addr (cursor + slack) (env.alloc_align id) < limit →
          align_addr (cursor + slack) (env.alloc_align id) +
              max (env.alloc_size id) 1 ≤ env.target_usize_max →
          (addr_from_alloc_id_uncached env s thr id kind slack none).outcome =
              .ok (align_addr (cursor + slack) (env.alloc_align id)) ∧
            env.alloc_align id ∣ align_addr (cursor + slack) (env.alloc_align id) ∧
            cursor + slack ≤ align_addr (cursor + slack) (env.alloc_align id) ∧
            align_addr (cursor + slack) (env.alloc_align id) <
              cursor + slack + env.alloc_align id)) := by
  constructor
  · intro hk
    subst hk
    unfold addr_from_alloc_id_uncached
    rw [if_neg (by simp [hdead]), if_neg (by simp [hnat])]
    simp only []
    rw [if_pos (show True from trivial)]
    obtain ⟨hd1, hd2, hd3⟩ :=
      align_down_spec (thr.next_stack_addr - max (env.alloc_size id) 1)
        (env.alloc_align id) halign
    constructor
    · intro hlow
      rw [if_pos hlow]
    · intro hhigh
      rw [if_neg (by omega)]
      exact ⟨_, rfl, hd1, hd2, by omega⟩
  · intro hk cursor limit hcur hlim
    unfold addr_from_alloc_id_uncached
    rw [if_neg (by simp [hdead]), if_neg (by simp [hnat])]
    simp only []
    rw [if_neg hk]
    rw [← hcur] at hnof
    rw [← hcur, ← hlim]
    rw [if_neg (show ¬(cursor + slack ≥ 2 ^ 64) from by omega)]
    obtain ⟨ha1, ha2, ha3⟩ :=
      align_addr_spec (cursor + slack) (env.alloc_align id) halign
    constructor
    · intro hfail
      by_cases h1 : align_addr (cursor + slack) (env.alloc_align id) ≥ limit
      · rw [if_pos h1]
      · rw [if_neg h1]
        rcases hfail with hfail | hfail
        · exact absurd hfail (by omega)
        · by_cases h2 :
              align_addr (cursor + slack) (env.alloc_align id) +
                max (env.alloc_size id) 1 ≥ 2 ^ 64
          · rw [if_pos h2]
          · rw [if_neg h2, if_pos (show align_addr (cursor + slack)
                (env.alloc_align id) + max (env.alloc_size id) 1 >
                env.target_usize_max from by omega)]
    · intro hok1 hok2
      rw [if_neg (show ¬(align_addr (cursor + slack) (env.alloc_align id) ≥
            limit) from by omega),
        if_neg (show ¬(align_addr (cursor + slack) (env.alloc_align id) +
            max (env.alloc_size id) 1 ≥ 2 ^ 64) from by omega),
        if_neg (show ¬(align_addr (cursor + slack) (env.alloc_align id) +
            max (env.alloc_size id) 1 > env.target_usize_max) from by omega)]
      refine ⟨?_, ha1, ha2, ha3⟩
      split <;> rfl

/-- Concrete thread state: stack cursor 5000, stack floor 1000. -/
def thrW : ThreadState := ⟨5000, 1000⟩

theorem fresh_assignment_formulas_witness :
    envW.alloc_dead 0 = false ∧ envW.native = false ∧ 0 < envW.alloc_align 0 ∧
      (5 : Nat) < 16 ∧ envW.target_usize_max < 2 ^ 64 ∧
      thrW.stack_bottom ≤
        (thrW.next_stack_addr - max (envW.alloc_size 0) 1) -
          (thrW.next_stack_addr - max (envW.alloc_size 0) 1) %
            envW.alloc_align 0 ∧
      (∃ base,
        addr_from_alloc_id_uncached envW gsW thrW 0 MemoryKind.Stack 5 none =
            ⟨.ok base, gsW, { thrW with next_stack_addr := base }⟩ ∧
          envW.alloc_align 0 ∣ base ∧
          base ≤ thrW.next_stack_addr - max (envW.alloc_size 0) 1 ∧
          thrW.next_stack_addr - max (envW.alloc_size 0) 1 <
            base + envW.alloc_align 0) ∧
      (addr_from_alloc_id_uncached envW gsW thrW 0 MemoryKind.Heap 5 none).outcome =
        .ok (align_addr (200 + 5) (envW.alloc_align 0)) :=
  ⟨rfl, rfl, by decide, by decide, by decide, by decide,
    ((fresh_assignment_formulas envW gsW thrW 0 MemoryKind.Stack 5 rfl rfl
        (by decide) (by decide) (by decide) (by decide)).1 rfl).2 (by decide),
    (((fresh_assignment_formulas envW gsW thrW 0 MemoryKind.Heap 5 rfl rfl
        (by decide) (by decide) (by decide) (by decide)).2 (by decide) 200 100000
        (by rfl) (by rfl)).2 (by decide) (by decide)).1⟩

/-- C6: a resolve miss (no structural owner) whose translated probe lands
in a page classified `Typed` with element size `E` synthesizes a brand-new
handle: base address is the probe rounded down to a multiple of `E`
(`probe - probe % E`), size and alignment are both `E`, the handle is
registered in both the reverse and the forward map, and it is returned. -/
theorem typed_page_synthesis (env : Env) (f : Nat) (s : GlobalStateInner)
    (vaddr : Nat) (size : Int) (addr0 E : Nat)
    (hmode : s.provenance_mode ≠ ProvenanceMode.Strict)
    (hw : walkAddr s vaddr = some addr0) :
    ∀ probe, probe = (if 0 ≤ size then addr0 else addr0 - 1) →
      structuralHit env s probe = none →
      env.page_states (probe / env.page_size) = PageState.Typed E →
      ∀ s2, set_address s f (probe - probe % E) = some s2 →
        alloc_id_from_addr env f s vaddr size =
            ⟨.found f, s2, some ⟨f, probe - probe % E, E, E, false⟩⟩ ∧
          (probe - probe % E, f) ∈ s2.int_to_ptr_map ∧
          (f, probe - probe % E) ∈ s2.base_addr := by
  intro probe hprobe hmiss htyped s2 hsa
  obtain ⟨hexp, hbase, hip, _, _, _, _⟩ := set_address_eq hsa
  have hmem1 : (probe - probe % E, f) ∈ s2.int_to_ptr_map := insertIP_mem_self hip
  have hmem2 : (f, probe - probe % E) ∈ s2.base_addr := by
    rw [hbase]
    exact List.mem_cons_self _ _
  refine ⟨?_, hmem1, hmem2⟩
  unfold structuralHit at hmiss
  unfold alloc_id_from_addr
  rw [if_neg hmode, hw]
  simp only []
  rw [← hprobe]
  cases hk : searchKey s.int_to_ptr_map probe with
  | hit i =>
    rw [hk] at hmiss
    exact Option.noConfusion hmiss
  | miss p =>
    cases p with
    | zero =>
      unfold typedSynth
      rw [htyped]
      simp only [hsa]
    | succ q =>
      rw [hk] at hmiss
      simp only [] at hmiss
      simp only []
      set gq := s.int_to_ptr_map.getD q (0, 0) with hgq
      split at hmiss
      · exact Option.noConfusion hmiss
      · rw [if_neg (by assumption)]
        unfold typedSynth
        rw [htyped]
        simp only [hsa]

/-- Environment whose page 4 (addresses 0x4000–0x4FFF) is a Typed page with
element size 64, matching the spec's scenario. -/
def envT : Env :=
  ⟨0, 4096, fun n => if n = 4 then PageState.Typed 64 else PageState.Untyped,
    0, 0, 0, fun _ => 16, fun _ => 1, fun _ => false, fun _ => false, false,
    fun _ => 0, 100000, 50000, 2 ^ 64 - 1⟩

/-- Empty global state (no allocations yet). -/
def sT : GlobalStateInner := ⟨[], [], [], 0, 0, ProvenanceMode.Default, none⟩

/-- `sT` after synthesizing handle 7 at 0x4000. -/
def sT2 : GlobalStateInner :=
  ⟨[(0x4000, 7)], [(7, 0x4000)], [7], 0, 0, ProvenanceMode.Default, none⟩

theorem typed_page_synthesis_witness :
    sT.provenance_mode ≠ ProvenanceMode.Strict ∧
      walkAddr sT 0x4030 = some 0x4030 ∧
      structuralHit envT sT 0x4030 = none ∧
      envT.page_states (0x4030 / envT.page_size) = PageState.Typed 64 ∧
      set_address sT 7 (0x4030 - 0x4030 % 64) = some sT2 ∧
      alloc_id_from_addr envT 7 sT 0x4030 1 =
        ⟨.found 7, sT2, some ⟨7, 0x4030 - 0x4030 % 64, 64, 64, false⟩⟩ ∧
      (0x4030 - 0x4030 % 64, 7) ∈ sT2.int_to_ptr_map ∧
      (0x4030 - 0x4030 % 64 : Nat) = 0x4000 :=
  ⟨by decide, by rfl, by rfl, by rfl, by rfl,
    (typed_page_synthesis envT 7 sT 0x4030 1 0x4030 64 (by decide) (by rfl)
      0x4030 (by rfl) (by rfl) (by rfl) sT2 (by rfl)).1,
    (typed_page_synthesis envT 7 sT 0x4030 1 0x4030 64 (by decide) (by rfl)
      0x4030 (by rfl) (by rfl) (by rfl) sT2 (by rfl)).2.1,
    by decide⟩

/-- C7: under the Strict provenance policy every int-to-pointer cast stops
with the strict-provenance violation: it never succeeds, emits no warning,
and leaves the warning-dedup state unchanged, for every address, source
location, host thread and prior state. -/
theorem strict_mode_cast_always_fails (thread span : Nat) (st : CastGlobal)
    (addr : Nat) :
    ptr_from_addr_cast ProvenanceMode.Strict thread span st addr =
      ⟨.strictStop, none, st⟩ := rfl

/-- Once a (thread, span) pair is recorded in the dedup state, no later
Default-mode cast emits a warning for it. -/
theorem warns_zero_of_mem {st : CastGlobal} {casts : List (Nat × Nat × Nat)}
    {t span : Nat} (h : (t, span) ∈ st.past_warnings) :
    warnsAtThreadSpan (runCasts ProvenanceMode.Default st casts).1 t span = 0 := by
  induction casts generalizing st with
  | nil => rfl
  | cons c rest ih =>
    obtain ⟨t2, sp2, a2⟩ := c
    unfold runCasts ptr_from_addr_cast
    simp only []
    by_cases hm : (t2, sp2) ∈ st.past_warnings
    · rw [if_pos hm]
      simp only [Option.map_none', Option.toList_none, List.nil_append]
      exact ih h
    · rw [if_neg hm]
      simp only [Option.map_some', Option.toList_some, List.singleton_append]
      unfold warnsAtThreadSpan
      rw [List.filter_cons]
      have hrec := @ih ⟨(t2, sp2) :: st.past_warnings⟩
        (List.mem_cons_of_mem _ h)
      unfold warnsAtThreadSpan at hrec
      by_cases hts : t2 = t ∧ sp2 = span
      · exact absurd (hts.1 ▸ hts.2 ▸ h) hm
      · rw [if_neg (by simpa using hts)]
        exact hrec

/-- In any Default-mode cast sequence, at most one warning is emitted per
(host thread, source location) pair. -/
theorem warns_le_one (st : CastGlobal) (casts : List (Nat × Nat × Nat))
    (t span : Nat) :
    warnsAtThreadSpan (runCasts ProvenanceMode.Default st casts).1 t span ≤ 1 := by
  induction casts generalizing st with
  | nil => exact Nat.zero_le 1
  | cons c rest ih =>
    obtain ⟨t2, sp2, a2⟩ := c
    unfold runCasts ptr_from_addr_cast
    simp only []
    by_cases hm : (t2, sp2) ∈ st.past_warnings
    · rw [if_pos hm]
      simp only [Option.map_none', Option.toList_none, List.nil_append]
      exact ih st
    · rw [if_neg hm]
      simp only [Option.map_some', Option.toList_some, List.singleton_append]
      unfold warnsAtThreadSpan
      rw [List.filter_cons]
      by_cases hts : t2 = t ∧ sp2 = span
      · rw [if_pos (by simpa using hts)]
        have h0 : warnsAtThreadSpan
            (runCasts ProvenanceMode.Default ⟨(t2, sp2) :: st.past_warnings⟩ rest).1
              t span = 0 :=
          warns_zero_of_mem (by rw [hts.1, hts.2]; exact List.mem_cons_self _ _)
        unfold warnsAtThreadSpan at h0
        rw [List.length_cons, h0]
      · rw [if_neg (by simpa using hts)]
        exact ih ⟨(t2, sp2) :: st.past_warnings⟩

/-- C8 counterexample: the warning dedup state is a `thread_local!` set, so
two casts at the same source location on two different host threads each
emit a warning — two precision-loss warnings for source location 5 are
emitted process-wide, refuting "at most one warning per source location
across the whole process regardless of thread". -/
theorem default_warning_not_process_wide :
    warnsAtSpan (runCasts ProvenanceMode.Default ⟨[]⟩ [(0, 5, 1), (1, 5, 2)]).1 5 = 2 ∧
      ¬ warnsAtSpan
          (runCasts ProvenanceMode.Default ⟨[]⟩ [(0, 5, 1), (1, 5, 2)]).1 5 ≤ 1 := by
  decide

/-- C8 (amended): under the Default policy every int-to-pointer cast
succeeds with a wildcard pointer at the cast address; the precision-loss
warning is emitted exactly when the source location is not yet in the
current host thread's dedup set, so across any whole run at most one
warning is emitted per (host thread, source location) pair — the
deduplication is per host thread, not process-wide. -/
theorem default_cast_wildcard_and_per_thread_dedup
    (casts : List (Nat × Nat × Nat)) (t span thread sp addr : Nat)
    (st : CastGlobal) :
    (ptr_from_addr_cast ProvenanceMode.Default thread sp st addr).outcome =
        CastOutcome.okWildcard addr ∧
      ((ptr_from_addr_cast ProvenanceMode.Default thread sp st addr).warning ≠ none ↔
        (thread, sp) ∉ st.past_warnings) ∧
      warnsAtThreadSpan (runCasts ProvenanceMode.Default ⟨[]⟩ casts).1 t span ≤ 1 := by
  refine ⟨?_, ?_, warns_le_one ⟨[]⟩ casts t span⟩
  · unfold ptr_from_addr_cast
    simp only []
    split <;> rfl
  · unfold ptr_from_addr_cast
    simp only []
    by_cases hm : (thread, sp) ∈ st.past_warnings
    · rw [if_pos hm]
      simp [hm]
    · rw [if_neg hm]
      simp [hm]

/-- Environment with a 32-byte CPU-local window at [96, 128) whose template
window is at the same base, and only untyped pages. -/
def envC : Env :=
  ⟨0, 4096, fun _ => PageState.Untyped, 32, 96, 96, fun _ => 16, fun _ => 1,
    fun _ => false, fun _ => false, false, fun _ => 0, 100000, 50000, 2 ^ 64 - 1⟩

/-- C9 counterexample: resolving address 100 (inside the current thread's
CPU-local window) with an empty reverse map makes the template resolution
hit the no-predecessor arm, whose `None.unwrap()` panics — the operation
does not yield an explicit "no owner". -/
theorem cpu_local_template_miss_panics :
    (alloc_id_from_addr envC 7 sT 100 1).outcome = ResolveOutcome.panicked ∧
      (alloc_id_from_addr envC 7 sT 100 1).outcome ≠ ResolveOutcome.noOwner := by
  decide

/-- C9 (amended): during CPU-local window materialization, when the
template address itself fails to resolve the operation panics rather than
returning an explicit "no owner": a template with no reverse-map
predecessor is an `Option::unwrap` on `None`, and a predecessor whose
offset is not strictly within the owning handle's size is an explicit
`panic!`. (Only a failing template page walk is a graceful "no owner".) -/
theorem cpu_local_template_failure_panics (env : Env) (f : Nat)
    (s : GlobalStateInner) (vaddr addr : Nat)
    (hwin : env.current_cpu_local_base ≤ vaddr ∧
      vaddr < env.current_cpu_local_base + env.cpu_local_size)
    (oa : Nat)
    (how : walkAddr s (env.cpu_local_base0 + vaddr - env.current_cpu_local_base) =
      some oa) :
    (searchKey s.int_to_ptr_map oa = .miss 0 →
      cpuLocalMaterialize env f s vaddr addr = ⟨.panicked, s, none⟩) ∧
      (∀ q, searchKey s.int_to_ptr_map oa = .miss (q + 1) →
        ¬ (oa - (s.int_to_ptr_map.getD q (0, 0)).1 <
            env.alloc_size (s.int_to_ptr_map.getD q (0, 0)).2) →
        cpuLocalMaterialize env f s vaddr addr = ⟨.panicked, s, none⟩) := by
  constructor
  · intro hk
    unfold cpuLocalMaterialize
    rw [if_pos hwin]
    simp only [how, hk]
  · intro q hk hnot
    unfold cpuLocalMaterialize
    rw [if_pos hwin]
    simp only [how, hk]
    rw [if_neg hnot]

theorem cpu_local_template_failure_panics_witness :
    (envC.current_cpu_local_base ≤ 100 ∧
        100 < envC.current_cpu_local_base + envC.cpu_local_size) ∧
      walkAddr sT (envC.cpu_local_base0 + 100 - envC.current_cpu_local_base) =
        some 100 ∧
      searchKey sT.int_to_ptr_map 100 = .miss 0 ∧
      cpuLocalMaterialize envC 7 sT 100 100 = ⟨.panicked, sT, none⟩ :=
  ⟨by decide, by rfl, by rfl,
    (cpu_local_template_failure_panics envC 7 sT 100 100 (by decide) 100
      (by rfl)).1 (by rfl)⟩

/-- In a reverse map sorted strictly by address, every entry's key is at
most the last entry's key. -/
theorem pairwise_le_last {l : List (Nat × Nat)}
    (hs : List.Pairwise (fun p q => p.1 < q.1) l) :
    ∀ q ∈ l, ∀ last, l.getLast? = some last → q.1 ≤ last.1 := by
  induction l with
  | nil => intro q hq; cases hq
  | cons a rest ih =>
    obtain ⟨hrel, hsrest⟩ := List.pairwise_cons.mp hs
    intro q hq last hlast
    cases rest with
    | nil =>
      simp at hq hlast
      rw [hq, hlast]
    | cons c rest2 =>
      rw [List.getLast?_cons_cons] at hlast
      have hlast_mem : last ∈ c :: rest2 := List.mem_of_mem_getLast? hlast
      rcases List.mem_cons.mp hq with hq | hq
      · rw [hq]
        exact Nat.le_of_lt (hrel last hlast_mem)
      · exact ih hsrest q hq last hlast

/-- A successful `insertIP` on a sorted reverse map makes the inserted
address an exact `searchKey` hit on the inserted entry. -/
theorem insertIP_searchKey {l m : List (Nat × Nat)} {b id : Nat}
    (hs : List.Pairwise (fun p q => p.1 < q.1) l)
    (h : insertIP l b id = some m) :
    ∃ j, searchKey m b = .hit j ∧ m.getD j (0, 0) = (b, id) := by
  unfold insertIP at h
  split at h
  · rename_i hfast
    injection h with h
    subst h
    have hall : ∀ q ∈ l, q.1 < b := by
      intro q hq
      cases hl : l.getLast? with
      | none =>
        rw [hl] at hfast
        cases hfast
      | some last =>
        rw [hl] at hfast
        simp at hfast
        have := pairwise_le_last hs q hq last hl
        omega
    obtain ⟨h1, h2⟩ := searchKey_append id hall
    exact ⟨l.length, h1, h2⟩
  · split at h
    · cases h
    · rename_i p hp
      injection h with h
      subst h
      obtain ⟨h1, h2⟩ := searchKey_insertAt id hp
      exact ⟨p, h1, h2⟩

/-- C10: `set_address` — the registration route of every lazily synthesized
handle (typed-page synthesis and CPU-local materialization) — puts the
handle into the exposed set unconditionally at registration time; hence a
handle registered this way, never explicitly exposed before, is returned by
a subsequent wildcard address resolution of its base address. -/
theorem set_address_exposes_and_resolves (env : Env) (fresh : Nat)
    (s s2 : GlobalStateInner) (b : Nat)
    (hs : List.Pairwise (fun p q => p.1 < q.1) s.int_to_ptr_map)
    (hmode : s.provenance_mode ≠ ProvenanceMode.Strict)
    (hpt : s.page_table = none)
    (hnoexp : fresh ∉ s.exposed)
    (hsa : set_address s fresh b = some s2) :
    fresh ∈ s2.exposed ∧
      ∀ f2, (alloc_id_from_addr env f2 s2 b 1).outcome = .found fresh := by
  obtain ⟨hexp, hbase, hip, _, _, hm2, hp2⟩ := set_address_eq hsa
  have hfreshmem : fresh ∈ s2.exposed := by
    rw [hexp]
    exact List.mem_cons_self _ _
  refine ⟨hfreshmem, ?_⟩
  intro f2
  obtain ⟨j, hk, hgd⟩ := insertIP_searchKey hs hip
  unfold alloc_id_from_addr
  rw [if_neg (by rw [hm2]; exact hmode)]
  have hw2 : walkAddr s2 b = some b := by
    unfold walkAddr
    rw [hp2, hpt]
  rw [hw2]
  simp only []
  have hprobe : (if (0 : Int) ≤ 1 then b else b - 1) = b := by norm_num
  rw [hprobe, hk]
  simp only [hgd]
  rw [if_pos hfreshmem]

theorem set_address_exposes_and_resolves_witness :
    List.Pairwise (fun p q => p.1 < q.1) sT.int_to_ptr_map ∧
      sT.provenance_mode ≠ ProvenanceMode.Strict ∧
      sT.page_table = none ∧ 7 ∉ sT.exposed ∧
      set_address sT 7 0x4000 = some sT2 ∧
      7 ∈ sT2.exposed ∧
      (alloc_id_from_addr envT 9 sT2 0x4000 1).outcome = .found 7 :=
  ⟨by decide, by decide, by rfl, by decide, by rfl,
    (set_address_exposes_and_resolves envT 7 sT sT2 0x4000 (by decide)
      (by decide) (by rfl) (by decide) (by rfl)).1,
    (set_address_exposes_and_resolves envT 7 sT sT2 0x4000 (by decide)
      (by decide) (by rfl) (by decide) (by rfl)).2 9⟩

/-- Global state with a page table installed whose walk maps every virtual
address v to physical v + 16 (modelled from the spec: the page table is an
arbitrary virtual-to-physical map). -/
def s3 : GlobalStateInner :=
  ⟨[], [], [], 1000, 300, ProvenanceMode.Default, some ⟨fun v => some (v + 16)⟩⟩

/-- C3 counterexample: with a page table installed, the first assignment
for handle 0 returns virtual address 1000, the forward map caches the
walked physical address 1016, and the second call returns
1016 + KERNEL_CODE_BASE_VADDR = 1016 ≠ 1000 — not the address the first
call returned. -/
theorem assignment_not_idempotent_with_page_table :
    (addr_from_alloc_id envW s3 thrW 0 MemoryKind.Heap 0 none).outcome =
        AssignOutcome.ok 1000 ∧
      (addr_from_alloc_id envW
          (addr_from_alloc_id envW s3 thrW 0 MemoryKind.Heap 0 none).gs
          thrW 0 MemoryKind.Heap 0 none).outcome = AssignOutcome.ok 1016 ∧
      (1016 : Nat) ≠ 1000 := by
  decide

/-- C3 (amended): `addr_from_alloc_id` is cached: whenever the forward map
already has an entry for the handle, the call returns that entry plus
`KERNEL_CODE_BASE_VADDR` and changes nothing — so all calls after the first
agree with each other and create no new forward- or reverse-map entries.
When no page table is installed the cached entry is
`first result - KERNEL_CODE_BASE_VADDR`, so every later call (with any
memory kind, slack or reuse oracle) returns exactly the first call's
address with the state unchanged; with a page table installed the cached
entry is `page_walk(first result)`, so later calls return
`page_walk(first) + KERNEL_CODE_BASE_VADDR`, which can differ from the
first call's return. -/
theorem assignment_cached_idempotent_without_page_table (env : Env)
    (s : GlobalStateInner) (thr : ThreadState) (id : Nat) (kind : MemoryKind)
    (slack : Nat) (rr : Option Nat) :
    (∀ a, lookupA s.base_addr id = some a →
      addr_from_alloc_id env s thr id kind slack rr =
        ⟨.ok (a + env.kcbv), s, thr⟩) ∧
      (s.page_table = none → lookupA s.base_addr id = none →
        ∀ v s1 thr1 kind2 slack2 rr2,
          addr_from_alloc_id env s thr id kind slack rr = ⟨.ok v, s1, thr1⟩ →
          env.kcbv ≤ v →
          addr_from_alloc_id env s1 thr1 id kind2 slack2 rr2 =
            ⟨.ok v, s1, thr1⟩) := by
  constructor
  · intro a ha
    unfold addr_from_alloc_id
    rw [ha]
  · intro hpt hnone v s1 thr1 kind2 slack2 rr2 hcall hv
    obtain ⟨hm, hb, he, hpm, hptu⟩ := uncached_state env s thr id kind slack rr
    unfold addr_from_alloc_id at hcall
    rw [hnone] at hcall
    cases hu : addr_from_alloc_id_uncached env s thr id kind slack rr with
    | mk outc gs1 thr1' =>
      rw [hu] at hcall hm hb he hpm hptu
      simp only at hm hb he hpm hptu
      cases outc with
      | ok base_vaddr =>
        have hpt1 : gs1.page_table = none := by rw [hptu, hpt]
        simp only [hpt1] at hcall
        cases hip : insertIP gs1.int_to_ptr_map (base_vaddr - env.kcbv) id with
        | none =>
          rw [hip] at hcall
          simp at hcall
        | some mm =>
          rw [hip] at hcall
          simp only [AssignResult.mk.injEq, AssignOutcome.ok.injEq] at hcall
          obtain ⟨hveq, hs1eq, hthr⟩ := hcall
          subst hveq
          subst hs1eq
          subst hthr
          unfold addr_from_alloc_id
          simp only [lookupA, eq_self_iff_true, if_true]
          rw [Nat.sub_add_cancel hv]
      | exhausted => simp at hcall
      | panicked => simp at hcall

/-- `sT` after assigning handle 1 a heap address with zero slack: base 0,
forward entry (1, 0), cursor advanced to 16. -/
def sC3 : GlobalStateInner :=
  ⟨[(0, 1)], [(1, 0)], [], 16, 0, ProvenanceMode.Default, none⟩

theorem assignment_cached_idempotent_without_page_table_witness :
    lookupA gsW.base_addr 0 = some 100 ∧
      addr_from_alloc_id envW gsW thrW 0 MemoryKind.Heap 0 none =
        ⟨.ok (100 + envW.kcbv), gsW, thrW⟩ ∧
      sT.page_table = none ∧ lookupA sT.base_addr 1 = none ∧
      addr_from_alloc_id envW sT thrW 1 MemoryKind.Heap 0 none =
        ⟨.ok 0, sC3, thrW⟩ ∧
      envW.kcbv ≤ 0 ∧
      addr_from_alloc_id envW sC3 thrW 1 MemoryKind.Heap 3 none =
        ⟨.ok 0, sC3, thrW⟩ :=
  ⟨by rfl,
    (assignment_cached_idempotent_without_page_table envW gsW thrW 0
      MemoryKind.Heap 0 none).1 100 (by rfl),
    by rfl, by rfl, by rfl, by decide,
    (assignment_cached_idempotent_without_page_table envW sT thrW 1
      MemoryKind.Heap 0 none).2 (by rfl) (by rfl) 0 sC3 thrW
      MemoryKind.Heap 3 none (by rfl) (by decide)⟩
